import Mathlib

/-!
Verification of the SMASH layer library (`src/layers.py`) and the
mixture-of-softmaxes Wide ResNet (`src/Models/WRN_MOS.py`).

The PyTorch code is shallowly embedded:

* a feature tensor at one spatial site is a channel vector `Tensor := List ℝ`
  (elementwise ops act channelwise; the gating slices `[:, ::2]` / `[:, 1::2]`
  act on the channel dimension);
* a full 2-d feature map of one sample is a function `ℕ → ℕ → ℕ → ℝ`
  (channel, row, column), and `F.conv2d` is embedded concretely as the
  zero-padded cross-correlation `conv2d` below;
* learned submodules whose internals do not matter for a property
  (batch norms, the convolutions inside the branch ops of `Layer`) are
  carried as abstract functions inside the module structures;
* Python control flow that can raise (calling an empty `nn.Module`,
  a missing mask attribute, `super` with an unrelated class) is embedded
  with `Option`, `none` standing for the raised exception.

Machine floats are idealised as real numbers throughout.
-/

open Finset

noncomputable section

/-- Channel vector at one spatial position: the carrier for the
elementwise layer algebra of `src/layers.py`. -/
abbrev Tensor := List ℝ

/-- Elementwise tensor addition (`+` on equally shaped torch tensors). -/
def tAdd (a b : Tensor) : Tensor := List.zipWith (· + ·) a b

/-- Elementwise tensor multiplication (`*` on equally shaped torch tensors). -/
def tMul (a b : Tensor) : Tensor := List.zipWith (· * ·) a b

/-- Scalar `F.relu`. -/
def reluR (x : ℝ) : ℝ := max x 0

/-- Scalar `F.sigmoid`. -/
def sigmoidR (x : ℝ) : ℝ := 1 / (1 + Real.exp (-x))

/-- Elementwise `F.relu` on a tensor. -/
def reluT (t : Tensor) : Tensor := t.map reluR

/-- Channels at stride two starting from the head: python slice `[::2]`. -/
def everyOther : List ℝ → List ℝ
  | [] => []
  | [a] => [a]
  | a :: _ :: rest => a :: everyOther rest

/-- Even-indexed channels, `t[:, ::2]`. -/
def evenChannels (t : Tensor) : Tensor := everyOther t

/-- Odd-indexed channels, `t[:, 1::2]`. -/
def oddChannels (t : Tensor) : Tensor := everyOther t.tail

/-- The `add_split` gate of `Layer.forward`
(`F.tanh(pre_gate[:,::2]) * F.sigmoid(pre_gate[:,1::2])`, src/layers.py
lines 221-222 and 235-236 and 243-244). -/
def gateSplit (pre_gate : Tensor) : Tensor :=
  List.zipWith (fun a b => Real.tanh a * sigmoidR b)
    (evenChannels pre_gate) (oddChannels pre_gate)

/-! ## Python class model for the elementwise combinators (src/layers.py 39-63)

`EML.__init__` runs `super(ESL, self).__init__()`.  CPython's `super(C, self)`
demands `isinstance(self, C)`, i.e. that `C` occurs in the MRO of
`type(self)`; otherwise it raises `TypeError` before any initializer runs.
The classes involved and their linearisations are embedded below. -/

/-- The Python classes of src/layers.py lines 39-63 plus their bases. -/
inductive PyClass
  | obj
  | module
  | esl
  | eml
  | cl
deriving DecidableEq

/-- Method resolution order of each class
(`ESL`, `EML`, `CL` all derive directly from `nn.Module`). -/
def pyMro : PyClass → List PyClass
  | .obj => [.obj]
  | .module => [.module, .obj]
  | .esl => [.esl, .module, .obj]
  | .eml => [.eml, .module, .obj]
  | .cl => [.cl, .module, .obj]

/-- `super(c, self)` for `self` of class `selfCls` succeeds exactly when `c`
is in the MRO of `selfCls`; embedded as `Option`, `none` being the raised
`TypeError`. -/
def pySuper (c selfCls : PyClass) : Option Unit :=
  if c ∈ pyMro selfCls then some () else none

/-- `ESL.__init__` (line 41 runs `super(ESL, self).__init__()` with
`self : ESL`), returning the constructed forward `x + module(x)`. -/
def ESL.make (m : Tensor → Tensor) : Option (Tensor → Tensor) :=
  (pySuper .esl .esl).map fun _ => fun x => tAdd x (m x)

/-- `EML.__init__` (line 50 runs `super(ESL, self).__init__()` with
`self : EML`), returning, were construction to succeed, the forward
`x * module(x)` of line 54. -/
def EML.make (m : Tensor → Tensor) : Option (Tensor → Tensor) :=
  (pySuper .esl .eml).map fun _ => fun x => tMul x (m x)

/-! ## Concrete 2-d convolution (the `F.conv2d` collaborator)

One input sample is `x : ℕ → ℕ → ℕ → ℝ` (channel, row, column) with extent
`H × W`; reads outside the zero-padded window give `0`.  `conv2d` is the
zero-padded cross-correlation torch computes for `groups = 1` (the only
group count the verified modules use). -/

/-- Read pixel `(a, b)` of the zero-padding of `x` by `p` on every side. -/
def padRead (x : ℕ → ℕ → ℕ → ℝ) (H W p ci a b : ℕ) : ℝ :=
  if p ≤ a ∧ a < H + p ∧ p ≤ b ∧ b < W + p then x ci (a - p) (b - p) else 0

/-- `F.conv2d` with square spatial semantics: output channel `co` at output
position `(i, j)`. -/
def conv2d (in_channels kh kw stride padding dil : ℕ)
    (weight : ℕ → ℕ → ℕ → ℕ → ℝ) (bias : ℕ → ℝ)
    (x : ℕ → ℕ → ℕ → ℝ) (H W co i j : ℕ) : ℝ :=
  bias co + ∑ ci ∈ range in_channels, ∑ u ∈ range kh, ∑ v ∈ range kw,
    weight co ci u v * padRead x H W padding ci (stride * i + dil * u) (stride * j + dil * v)

/-! ## Weight-normalised convolution (src/layers.py 66-84) -/

/-- `torch.norm(w)`: the Frobenius norm of the whole 4-d weight tensor of
extents `co × ci × kh × kw`. -/
def tnorm (co ci kh kw : ℕ) (w : ℕ → ℕ → ℕ → ℕ → ℝ) : ℝ :=
  Real.sqrt (∑ a ∈ range co, ∑ b ∈ range ci, ∑ u ∈ range kh, ∑ v ∈ range kw, w a b u v ^ 2)

/-- `wn2d` (src/layers.py 66-67): divide the weight by its global tensor
norm, broadcast over every entry.  There is no guard against a zero norm. -/
def wn2d (co ci kh kw : ℕ) (w : ℕ → ℕ → ℕ → ℕ → ℝ) : ℕ → ℕ → ℕ → ℕ → ℝ :=
  fun a b u v => w a b u v / tnorm co ci kh kw w

/-- The weight tensor has a nonzero entry inside its extents. -/
def WNonzero (co ci kh kw : ℕ) (w : ℕ → ℕ → ℕ → ℕ → ℝ) : Prop :=
  ∃ a < co, ∃ b < ci, ∃ u < kh, ∃ v < kw, w a b u v ≠ 0

/-- Pointwise rescaling of a stored weight tensor by a scalar `c`. -/
def scaleW (c : ℝ) (w : ℕ → ℕ → ℕ → ℕ → ℝ) : ℕ → ℕ → ℕ → ℕ → ℝ :=
  fun a b u v => c * w a b u v

/-- `WNC2D`, a `nn.Conv2d` whose forward normalises the raw weight first
(src/layers.py 76-84). -/
structure WNC2D where
  out_channels : ℕ
  in_channels : ℕ
  kh : ℕ
  kw : ℕ
  stride : ℕ
  padding : ℕ
  dil : ℕ
  weight : ℕ → ℕ → ℕ → ℕ → ℝ
  bias : ℕ → ℝ

/-- `WNC2D.forward`: `F.conv2d(input, wn2d(self.weight), self.bias, ...)`. -/
def WNC2D.forward (c : WNC2D) (x : ℕ → ℕ → ℕ → ℝ) (H W co i j : ℕ) : ℝ :=
  conv2d c.in_channels c.kh c.kw c.stride c.padding c.dil
    (wn2d c.out_channels c.in_channels c.kh c.kw c.weight) c.bias x H W co i j

/-! ## `seq` (src/layers.py 88-127) -/

/-- The padding computed in `seq.__init__` (line 105):
`(k + (k-1)*(d-1)) // 2` per spatial axis. -/
def seqPadding (kernel_size dilation : ℕ × ℕ) : ℕ × ℕ :=
  ((kernel_size.1 + (kernel_size.1 - 1) * (dilation.1 - 1)) / 2,
   (kernel_size.2 + (kernel_size.2 - 1) * (dilation.2 - 1)) / 2)

/-- Spatial output extent of `nn.Conv2d` along one axis
(`⌊(in + 2p - d(k-1) - 1) / s⌋ + 1`, the documented torch formula). -/
def conv2dOutDim (inDim k d p s : ℕ) : ℕ :=
  (inDim + 2 * p - (d * (k - 1) + 1)) / s + 1

/-- Spatial output extent of the convolution held by a `seq` instance along
one axis: stride one, padding from `seqPadding`. -/
def seqOutDim (k d inDim : ℕ) : ℕ :=
  conv2dOutDim inDim k d (seqPadding (k, k) (d, d)).1 1

/-- The data of a `seq` module needed by `Layer`: its configuration plus its
batch norm and convolution as functions on channel vectors. -/
structure SeqMod where
  preactivation : Bool
  batchnorm : Bool
  bn : Tensor → Tensor
  conv : Tensor → Tensor

/-- `seq.forward(x, f)` (src/layers.py 114-127): preactivation gives
`conv(f(bn?(x)))`, postactivation gives `f(bn?(conv(x)))`; the nonlinearity
`f` defaults to `F.relu` at call sites and is applied elementwise. -/
def SeqMod.forward (s : SeqMod) (x : Tensor) (f : ℝ → ℝ) : Tensor :=
  if s.preactivation then
    if s.batchnorm then s.conv ((s.bn x).map f) else s.conv (x.map f)
  else
    if s.batchnorm then (s.bn (s.conv x)).map f else (s.conv x).map f

/-! ## `Layer` (src/layers.py 142-262)

`self.op` holds, per index, either a `seq` instance (when the corresponding
`ops` flag was true) or a bare `nn.Module()`; the latter is `none` here, and
calling it (as the dispatch in `forward` sometimes does) raises, i.e. gives
`none`.  `type(self.op[i]) is seq` is `(op i).isSome`. -/

/-- A constructed `Layer`: the gating/normalisation configuration, the
initial batch norms and 1×1 convolution as abstract functions, and the four
optional branch ops. -/
structure Layer where
  gate : Bool × Bool
  gate_style : String
  norm_style : String
  preactivation : Bool
  bn1 : Tensor → Tensor
  bn2 : Tensor → Tensor
  conv1 : Tensor → Tensor
  op0 : Option SeqMod
  op1 : Option SeqMod
  op2 : Option SeqMod
  op3 : Option SeqMod

/-- Call an optional branch op with nonlinearity `f`; calling an absent op
(a bare `nn.Module()`) raises, giving `none`. -/
def applyOp (o : Option SeqMod) (f : ℝ → ℝ) (x : Tensor) : Option Tensor :=
  o.map fun s => s.forward x f

/-- `self.initial_op` as assembled in `Layer.__init__` (lines 169-188):
for non-`'WN'` styles `bn1`/ReLU/`conv1` in pre- or post-activation order,
for `'WN'` just ReLU and the (weight-normalised) `conv1`; `'sandwich'`
appends `bn2`. -/
def Layer.initial_op (L : Layer) (x : Tensor) : Tensor :=
  let core :=
    if L.norm_style ≠ "WN" then
      if L.preactivation then L.conv1 (reluT (L.bn1 x)) else reluT (L.bn1 (L.conv1 x))
    else
      if L.preactivation then L.conv1 (reluT x) else reluT (L.conv1 x)
  if L.norm_style = "sandwich" then L.bn2 core else core

/-- The intermediate value of `Layer.forward` after the first gating stage:
either a single tensor or the two-element list of lines 225. -/
inductive StageOut
  | single (t : Tensor)
  | pair (a b : Tensor)

/-- First gating stage of `Layer.forward` (lines 217-228), acting on
`out = initial_op(x)`. -/
def Layer.stage0 (L : Layer) (out : Tensor) : Option StageOut :=
  if L.gate.1 then
    if L.gate_style = "mult" then do
      let a ← applyOp L.op0 Real.tanh out
      let b ← applyOp L.op2 sigmoidR out
      pure (.single (tMul a b))
    else do
      let a ← applyOp L.op0 reluR out
      let b ← applyOp L.op2 reluR out
      pure (.single (gateSplit (tAdd a b)))
  else if L.op2.isSome then do
    let a ← applyOp L.op0 reluR out
    let b ← applyOp L.op2 reluR out
    pure (.pair a b)
  else do
    let a ← applyOp L.op0 reluR out
    pure (.single a)

/-- Second gating stage of `Layer.forward` (lines 230-260). -/
def Layer.stage1 (L : Layer) (o : StageOut) : Option Tensor :=
  if L.gate.2 then
    match o with
    | .pair a b =>
      if L.gate_style = "mult" then do
        let x1 ← applyOp L.op1 Real.tanh a
        let x3 ← applyOp L.op3 sigmoidR b
        pure (tMul x1 x3)
      else do
        let x1 ← applyOp L.op1 reluR a
        let x3 ← applyOp L.op3 reluR b
        pure (gateSplit (tAdd x1 x3))
    | .single t =>
      if L.gate_style = "mult" then do
        let x1 ← applyOp L.op1 Real.tanh t
        let x3 ← applyOp L.op3 sigmoidR t
        pure (tMul x1 x3)
      else do
        let x1 ← applyOp L.op1 reluR t
        let x3 ← applyOp L.op3 reluR t
        pure (gateSplit (tAdd x1 x3))
  else if L.op3.isSome then
    match o with
    | .pair a b => do
      let x1 ← applyOp L.op1 reluR a
      let x3 ← applyOp L.op3 reluR b
      pure (tAdd x1 x3)
    | .single t => do
      let x1 ← applyOp L.op1 reluR t
      let x3 ← applyOp L.op3 reluR t
      pure (tAdd x1 x3)
  else if L.op1.isSome then
    match o with
    | .pair a b => do
      let x1 ← applyOp L.op1 reluR a
      pure (tAdd x1 b)
    | .single t => applyOp L.op1 reluR t
  else
    match o with
    | .pair a b => pure (tAdd a b)
    | .single t => pure t

/-- `Layer.forward` (lines 213-262): the initial op, then the two gating
stages. -/
def Layer.forward (L : Layer) (x : Tensor) : Option Tensor :=
  (L.stage0 (L.initial_op x)).bind L.stage1

/-! ## `MDC` (src/layers.py 288-313) -/

/-- The 5×5 stencil installed for dilation 2 (lines 294-298). -/
def mdcMask5 : List (List ℝ) :=
  [[1, 0, 1, 0, 1],
   [0, 1, 1, 1, 0],
   [1, 1, 1, 1, 1],
   [0, 1, 1, 1, 0],
   [1, 0, 1, 0, 1]]

/-- The 7×7 stencil installed for dilation 3 (lines 300-306). -/
def mdcMask7 : List (List ℝ) :=
  [[1, 0, 0, 1, 0, 0, 1],
   [0, 1, 0, 1, 0, 1, 0],
   [0, 0, 1, 1, 1, 0, 0],
   [1, 1, 1, 1, 1, 1, 1],
   [0, 0, 1, 1, 1, 0, 0],
   [0, 1, 0, 1, 0, 1, 0],
   [1, 0, 0, 1, 0, 0, 1]]

/-- `self.m` replicated over channel pairs: present only for dilations 2 and
3 (reading it for another dilation raises `AttributeError`, hence `none`). -/
def mdcMask (dilation : ℕ) : Option (ℕ → ℕ → ℝ) :=
  if dilation = 2 then some fun u v => (mdcMask5.getD u []).getD v 0
  else if dilation = 3 then some fun u v => (mdcMask7.getD u []).getD v 0
  else none

/-- A constructed `MDC` module. -/
structure MDC where
  n_in : ℕ
  n_out : ℕ
  dilation : ℕ
  weight : ℕ → ℕ → ℕ → ℕ → ℝ

/-- Kernel extent of the stored convolution, `3 + 2*(dilation - 1)`
(line 307). -/
def MDC.kernel (m : MDC) : ℕ := 3 + 2 * (m.dilation - 1)

/-- `MDC.forward` (lines 309-313): for dilation above one, a dilation-1
convolution with the mask-multiplied weight and padding `dilation`; else the
stored plain convolution (padding `dilation`, dilation `dilation`, no
bias). -/
def MDC.forward (m : MDC) (x : ℕ → ℕ → ℕ → ℝ) (H W co i j : ℕ) : Option ℝ :=
  if 1 < m.dilation then
    (mdcMask m.dilation).map fun msk =>
      conv2d m.n_in m.kernel m.kernel 1 m.dilation 1
        (fun a b u v => m.weight a b u v * msk u v) (fun _ => 0) x H W co i j
  else
    some (conv2d m.n_in m.kernel m.kernel 1 m.dilation m.dilation
      m.weight (fun _ => 0) x H W co i j)

/-! ## `BasicBlock` (src/Models/WRN_MOS.py 13-43)

In `forward`, when the channel counts differ the local `x` is reassigned to
`relu1(bn1(x))` before the shortcut convolution reads it; `act` below is
that reassigned value. -/

/-- A constructed `BasicBlock`: channel counts, the two batch norms and
convolutions as abstract functions, the dropout configuration, and the
underlying 1×1 shortcut convolution. -/
structure BasicBlock where
  in_planes : ℕ
  out_planes : ℕ
  bn1 : Tensor → Tensor
  bn2 : Tensor → Tensor
  conv1 : Tensor → Tensor
  conv2 : Tensor → Tensor
  convShortcutF : Tensor → Tensor
  droprate : ℚ
  dropout : Tensor → Tensor

/-- `self.equalInOut = (in_planes == out_planes)` (line 26). -/
def BasicBlock.equalInOut (b : BasicBlock) : Bool := b.in_planes == b.out_planes

/-- `self.convShortcut` (lines 27-28): the 1×1 convolution when the channel
counts differ, `None` otherwise. -/
def BasicBlock.convShortcut (b : BasicBlock) : Option (Tensor → Tensor) :=
  if b.equalInOut then none else some b.convShortcutF

/-- The convolutional branch of `BasicBlock.forward` (lines 36-40): both
channel cases feed `relu1(bn1(x))` into `conv1`, then `relu2∘bn2`, optional
dropout, `conv2`. -/
def BasicBlock.branch (b : BasicBlock) (x : Tensor) : Tensor :=
  let mid := reluT (b.bn2 (b.conv1 (reluT (b.bn1 x))))
  b.conv2 (if 0 < b.droprate then b.dropout mid else mid)

/-- `BasicBlock.forward` (lines 30-43).  When `equalInOut` the original
input is added; otherwise the shortcut convolution is applied to the
reassigned `x = relu1(bn1(x))`.  Calling a `None` shortcut would raise,
hence the `Option`. -/
def BasicBlock.forward (b : BasicBlock) (x : Tensor) : Option Tensor :=
  let act := reluT (b.bn1 x)
  if b.equalInOut then some (tAdd x (b.branch x))
  else b.convShortcut.map fun f => tAdd (f act) (b.branch x)

/-! ## `Network` construction (src/Models/WRN_MOS.py 47-106)

Only the structural content is embedded: which blocks the three groups
receive, with which channel counts and strides, and the classifier extents.
Python's `and`/`or` on integers is value-returning and is embedded by
`pyCondOr`; `depth` is a Python `int`, embedded as `ℤ` (the assert uses
Python `%`, i.e. `Int.emod`, and `int((depth-4)/6)` truncates toward
zero). -/

/-- Python `cond and a or b` on integers (`a`, `b` nonzero means truthy). -/
def pyCondOr (cond : Bool) (a b : ℤ) : ℤ :=
  if cond then (if a ≠ 0 then a else b) else b

/-- The data of one `BasicBlock` as instantiated by `Network._make_layer`. -/
structure BlockSpec where
  in_planes : ℤ
  out_planes : ℤ
  stride : ℤ
deriving DecidableEq

/-- `Network._make_layer` (lines 101-106):
`block(i == 0 and in_planes or out_planes, out_planes, i == 0 and stride or 1, dropRate)`
for `i in range(nb_layers)`. -/
def makeLayer (nb_layers in_planes out_planes stride : ℤ) : List BlockSpec :=
  (List.range nb_layers.toNat).map fun i =>
    { in_planes := pyCondOr (i == 0) in_planes out_planes
      out_planes := out_planes
      stride := pyCondOr (i == 0) stride 1 }

/-- The structural result of `Network.__init__`. -/
structure NetworkSpec where
  block1 : List BlockSpec
  block2 : List BlockSpec
  block3 : List BlockSpec
  fcIn : ℤ
  fcOut : ℤ
  nClasses : ℤ
  epochs : ℤ
deriving DecidableEq

/-- `n_components = 10` (line 53). -/
def nComponents : ℕ := 10

/-- `Network.__init__` (lines 48-106): `none` when the depth assert fires;
otherwise the three groups from `_make_layer` with strides 1, 2, 2 over the
widened channel ladder, and the `nChannels[3] → (nClasses+1)*10` linear
classifier. -/
def Network.make (widen_factor depth nClasses epochs : ℤ) : Option NetworkSpec :=
  if (depth - 4) % 6 = 0 then
    let n : ℤ := Int.tdiv (depth - 4) 6
    let c0 : ℤ := 16
    let c1 : ℤ := 16 * widen_factor
    let c2 : ℤ := 32 * widen_factor
    let c3 : ℤ := 64 * widen_factor
    some { block1 := makeLayer n c0 c1 1
           block2 := makeLayer n c1 c2 2
           block3 := makeLayer n c2 c3 2
           fcIn := c3
           fcOut := (nClasses + 1) * (nComponents : ℤ)
           nClasses := nClasses
           epochs := epochs }
  else none

/-! ## The mixture-of-softmaxes head of `Network.forward`
(src/Models/WRN_MOS.py 113-134)

`F.softmax` acts rowwise; one row of `context` is a function `ℕ → ℝ` of
which the slice `[start, start+n)` is normalised. -/

/-- One row of `F.softmax` on the slice `[start, start+n)` of `v`. -/
def softmaxSlice (v : ℕ → ℝ) (start n j : ℕ) : ℝ :=
  Real.exp (v (start + j)) / ∑ i ∈ range n, Real.exp (v (start + i))

/-- `priors = F.softmax(context[:, -self.n_components:])` (line 124): the
last `n_components` entries of a row of length `(nClasses+1)*n_components`
start at `nClasses*n_components`. -/
def mosPriors (nClasses : ℕ) (ctx : ℕ → ℝ) (i : ℕ) : ℝ :=
  softmaxSlice ctx (nClasses * nComponents) nComponents i

/-- `F.softmax(context[:, i*nClasses : (i+1)*nClasses])` (line 125): the
class distribution of mixture component `i`. -/
def mosComponent (nClasses : ℕ) (ctx : ℕ → ℝ) (i j : ℕ) : ℝ :=
  softmaxSlice ctx (i * nClasses) nClasses j

/-- `mixtures.sum(1)` (lines 125-126): the prior-weighted sum of the
per-component class distributions at class `j`. -/
def mosMixture (nClasses : ℕ) (ctx : ℕ → ℝ) (j : ℕ) : ℝ :=
  ∑ i ∈ range nComponents, mosPriors nClasses ctx i * mosComponent nClasses ctx i j

/-- `out = torch.log(mixtures.sum(1))` (line 126): one entry of the returned
log-probability row. -/
def mosOut (nClasses : ℕ) (ctx : ℕ → ℝ) (j : ℕ) : ℝ :=
  Real.log (mosMixture nClasses ctx j)

/-- `F.avg_pool2d(out, (out.size(2), out.size(3)))` followed by
`view(-1, nChannels)` (lines 119-120): the spatial mean of one sample's
feature map, per channel. -/
def avgPoolAll (feat : ℕ → ℕ → ℕ → ℝ) (Hp Wp c : ℕ) : ℝ :=
  (∑ i ∈ range Hp, ∑ j ∈ range Wp, feat c i j) / (Hp * Wp)

/-- `self.fc` (line 121): an affine map from the pooled `nChannels` features
to the `(nClasses+1)*n_components` context entries. -/
def fcApply (inFeatures : ℕ) (w : ℕ → ℕ → ℝ) (bias : ℕ → ℝ) (v : ℕ → ℝ) (k : ℕ) : ℝ :=
  bias k + ∑ c ∈ range inFeatures, w k c * v c

/-- Rows of the value returned by `Network.forward` (lines 113-134), as a
function of the trunk's output feature maps `feat` (sample, channel, row,
column) of spatial extent `Hp × Wp`: pool, flatten, apply `fc`, then the
mixture-of-softmaxes head.  Entry `j` of row `b` is the log-probability of
class `j < nClasses` for sample `b`. -/
def Network.forwardRow (nChannels nClasses : ℕ) (fcW : ℕ → ℕ → ℝ) (fcB : ℕ → ℝ)
    (feat : ℕ → ℕ → ℕ → ℕ → ℝ) (Hp Wp b j : ℕ) : ℝ :=
  mosOut nClasses (fcApply nChannels fcW fcB (avgPoolAll (feat b) Hp Wp)) j

/-! # Claims -/

/-! ## C6: `seq` padding and spatial-size preservation -/

/-- C6 counterexample: the claim asserts that the padding
`(k + (k-1)(d-1)) // 2` preserves the spatial size for every kernel size and
dilation accepted by the `seq` constructor; for kernel size 2, dilation 1 and
input extent 4 the output extent is 5, not 4. -/
theorem seqOutDim_even_kernel_cex : seqOutDim 2 1 4 ≠ 4 := by decide

/-- C6 (amended): the `seq` convolution padding along each spatial axis is
`(k + (k-1)*(d-1)) // 2` (definition `seqPadding`, the formula of
src/layers.py line 105), and this padding preserves the spatial input size
under the stride-one `seq` convolution whenever `(k-1)*d` is even — in
particular for every odd kernel size, which covers every configuration the
repository instantiates. -/
theorem seq_padding_preserves_dim (k d H : ℕ) (hk : 0 < k) (hd : 0 < d)
    (hH : 0 < H) (hpar : 2 ∣ (k - 1) * d) : seqOutDim k d H = H := by
  obtain ⟨k, rfl⟩ : ∃ m, k = m + 1 := ⟨k - 1, by omega⟩
  obtain ⟨d, rfl⟩ : ∃ m, d = m + 1 := ⟨d - 1, by omega⟩
  simp only [seqOutDim, conv2dOutDim, seqPadding, Nat.add_sub_cancel] at hpar ⊢
  have e1 : (d + 1) * k = k * d + k := by ring
  have e2 : k + 1 + k * d = k * d + (k + 1) := by ring
  have e3 : k * (d + 1) = k * d + k := by ring
  rw [e1, e2]
  rw [e3] at hpar
  generalize k * d = P at hpar ⊢
  omega

/-- C6 witness: kernel size 3, dilation 2, input extent 5 is preserved. -/
theorem seq_padding_preserves_dim_witness :
    0 < 3 ∧ 0 < 2 ∧ 0 < 5 ∧ 2 ∣ (3 - 1) * 2 ∧ seqOutDim 3 2 5 = 5 :=
  ⟨by decide, by decide, by decide, by decide,
    seq_padding_preserves_dim 3 2 5 (by decide) (by decide) (by decide) (by decide)⟩

/-! ## C8: `EML` construction -/

/-- C8 counterexample: the claim asserts that constructing `EML` invokes
`ESL`'s parent-class initializer and yields a working instance; in CPython,
`super(ESL, self)` with `self` an `EML` raises `TypeError` because `EML` is
not a subclass of `ESL`, so construction never completes. -/
theorem eml_make_cex : EML.make (fun t => t) = none := rfl

/-- C8 (amended): `EML.__init__`'s call `super(ESL, self).__init__()` raises
`TypeError` (`ESL` is not in `EML`'s MRO), so constructing `EML` always
fails; `ESL`'s own identical call succeeds and yields the sum combinator
`x + module(x)`.  The `forward` body of `EML` (line 54), were an instance
ever obtained, is the product `x * module(x)` — the function `EML.make`
would return if `pySuper` succeeded. -/
theorem eml_init_fails :
    pySuper PyClass.esl PyClass.eml = none ∧
    (∀ m : Tensor → Tensor, EML.make m = none) ∧
    (∀ m : Tensor → Tensor, ESL.make m = some fun x => tAdd x (m x)) :=
  ⟨rfl, fun _ => rfl, fun _ => rfl⟩

/-! ## C9: `Network` construction block counts and strides -/

/-- C9 counterexample: the claim quantifies over every integer depth with
`(depth - 4) % 6 == 0`.  At `depth = -2` the assert passes
(`(-6) % 6 == 0` in Python), `n = int((depth-4)/6) = -1`, `range(-1)` is
empty, and construction succeeds with zero blocks, while the claimed count
`3 * ((depth-4)/6) = -3` is not the block count. -/
theorem network_make_negative_depth_cex :
    Network.make 1 (-2) 10 100 = some
      { block1 := [], block2 := [], block3 := [], fcIn := 64, fcOut := 110,
        nClasses := 10, epochs := 100 } ∧
    ¬ ((0 : ℤ) = 3 * Int.tdiv ((-2 : ℤ) - 4) 6) := by
  constructor
  · decide
  · decide

/-- C9 (amended): for every depth at least 4 with `(depth - 4) % 6 == 0`
(and positive widen factor, class count and epoch count), `Network`
construction succeeds, the three groups together hold exactly
`3 * ((depth-4)/6)` blocks, every block of group one has stride 1, and in
groups two and three the first block has stride 2 and the rest stride 1. -/
theorem network_make_valid_depth (widen_factor depth nClasses epochs : ℤ)
    (hd : 4 ≤ depth) (h6 : (depth - 4) % 6 = 0)
    (_hw : 0 < widen_factor) (_hc : 0 < nClasses) (_he : 0 < epochs) :
    ∃ spec : NetworkSpec,
      Network.make widen_factor depth nClasses epochs = some spec ∧
      (spec.block1.length : ℤ) + spec.block2.length + spec.block3.length
        = 3 * Int.tdiv (depth - 4) 6 ∧
      (∀ i, ∀ h : i < spec.block1.length, spec.block1[i].stride = 1) ∧
      (∀ i, ∀ h : i < spec.block2.length, spec.block2[i].stride = if i = 0 then 2 else 1) ∧
      (∀ i, ∀ h : i < spec.block3.length, spec.block3[i].stride = if i = 0 then 2 else 1) := by
  have hn : 0 ≤ Int.tdiv (depth - 4) 6 := by
    rw [Int.tdiv_eq_ediv (by omega) (by norm_num)]
    exact Int.ediv_nonneg (by omega) (by norm_num)
  simp only [Network.make, if_pos h6]
  refine ⟨_, rfl, ?_, ?_, ?_, ?_⟩
  · simp only [makeLayer, List.length_map, List.length_range]
    push_cast [Int.toNat_of_nonneg hn]
    ring
  · intro i h
    simp only [makeLayer, List.getElem_map, List.getElem_range]
    by_cases hi : i = 0 <;> simp [pyCondOr, hi]
  · intro i h
    simp only [makeLayer, List.getElem_map, List.getElem_range]
    by_cases hi : i = 0 <;> simp [pyCondOr, hi]
  · intro i h
    simp only [makeLayer, List.getElem_map, List.getElem_range]
    by_cases hi : i = 0 <;> simp [pyCondOr, hi]

/-- C9 witness: widen factor 2, depth 16 (`n = 2`), 10 classes, 100
epochs. -/
theorem network_make_valid_depth_witness :
    (4 : ℤ) ≤ 16 ∧ ((16 : ℤ) - 4) % 6 = 0 ∧ (0 : ℤ) < 2 ∧ (0 : ℤ) < 10 ∧ (0 : ℤ) < 100 ∧
    ∃ spec : NetworkSpec,
      Network.make 2 16 10 100 = some spec ∧
      (spec.block1.length : ℤ) + spec.block2.length + spec.block3.length
        = 3 * Int.tdiv ((16 : ℤ) - 4) 6 ∧
      (∀ i, ∀ h : i < spec.block1.length, spec.block1[i].stride = 1) ∧
      (∀ i, ∀ h : i < spec.block2.length, spec.block2[i].stride = if i = 0 then 2 else 1) ∧
      (∀ i, ∀ h : i < spec.block3.length, spec.block3[i].stride = if i = 0 then 2 else 1) :=
  ⟨by decide, by decide, by decide, by decide, by decide,
    network_make_valid_depth 2 16 10 100 (by decide) (by decide) (by decide)
      (by decide) (by decide)⟩

/-! ## C10 and C5: the global weight norm of `wn2d` / `WNC2D` -/

/-- The Frobenius norm is positive as soon as one in-extent entry is
nonzero. -/
theorem tnorm_pos (co ci kh kw : ℕ) (w : ℕ → ℕ → ℕ → ℕ → ℝ)
    (hw : WNonzero co ci kh kw w) : 0 < tnorm co ci kh kw w := by
  obtain ⟨a, ha, b, hb, u, hu, v, hv, hne⟩ := hw
  refine Real.sqrt_pos.mpr ?_
  have h4 : 0 < w a b u v ^ 2 := lt_of_le_of_ne (sq_nonneg _) (Ne.symm (pow_ne_zero 2 hne))
  have h3 : 0 < ∑ z ∈ range kw, w a b u z ^ 2 :=
    Finset.sum_pos' (fun _ _ => sq_nonneg _) ⟨v, mem_range.mpr hv, h4⟩
  have h2 : 0 < ∑ y ∈ range kh, ∑ z ∈ range kw, w a b y z ^ 2 :=
    Finset.sum_pos' (fun _ _ => Finset.sum_nonneg fun _ _ => sq_nonneg _)
      ⟨u, mem_range.mpr hu, h3⟩
  have h1 : 0 < ∑ s ∈ range ci, ∑ y ∈ range kh, ∑ z ∈ range kw, w a s y z ^ 2 :=
    Finset.sum_pos'
      (fun _ _ => Finset.sum_nonneg fun _ _ => Finset.sum_nonneg fun _ _ => sq_nonneg _)
      ⟨b, mem_range.mpr hb, h2⟩
  exact Finset.sum_pos'
    (fun _ _ => Finset.sum_nonneg fun _ _ => Finset.sum_nonneg fun _ _ =>
      Finset.sum_nonneg fun _ _ => sq_nonneg _)
    ⟨a, mem_range.mpr ha, h1⟩

/-- C10: `wn2d` divides by the global tensor norm with no zero guard: for
the all-zero weight the divisor `torch.norm(w)` is exactly zero and every
entry of the normalised weight is the division `0 / 0`, while under the
precondition that some entry is nonzero the divisor is nonzero, so the
normalisation (and hence every `WNC2D.forward` call) is well defined. -/
theorem wn2d_zero_norm_unguarded (co ci kh kw : ℕ) :
    tnorm co ci kh kw (fun _ _ _ _ => 0) = 0 ∧
    wn2d co ci kh kw (fun _ _ _ _ => 0) = (fun _ _ _ _ => (0 : ℝ) / 0) ∧
    ∀ w : ℕ → ℕ → ℕ → ℕ → ℝ, WNonzero co ci kh kw w → tnorm co ci kh kw w ≠ 0 := by
  have h0 : tnorm co ci kh kw (fun _ _ _ _ => 0) = 0 := by
    simp [tnorm]
  refine ⟨h0, ?_, ?_⟩
  · funext a b u v
    simp [wn2d, h0]
  · intro w hw
    exact ne_of_gt (tnorm_pos co ci kh kw w hw)

/-- C10 witness: a 1×1×1×1 weight tensor with entry 1 is nonzero and has a
nonzero global norm. -/
theorem wn2d_zero_norm_unguarded_witness :
    WNonzero 1 1 1 1 (fun _ _ _ _ => (1 : ℝ)) ∧
    tnorm 1 1 1 1 (fun _ _ _ _ => (1 : ℝ)) ≠ 0 :=
  ⟨⟨0, by norm_num, 0, by norm_num, 0, by norm_num, 0, by norm_num, by norm_num⟩,
   (wn2d_zero_norm_unguarded 1 1 1 1).2.2 _
     ⟨0, by norm_num, 0, by norm_num, 0, by norm_num, 0, by norm_num, by norm_num⟩⟩

/-- Scaling the raw weight scales its global norm (for a nonnegative
factor). -/
theorem tnorm_scaleW (co ci kh kw : ℕ) (c : ℝ) (hc : 0 ≤ c) (w : ℕ → ℕ → ℕ → ℕ → ℝ) :
    tnorm co ci kh kw (scaleW c w) = c * tnorm co ci kh kw w := by
  unfold tnorm scaleW
  simp only [mul_pow, ← Finset.mul_sum]
  rw [Real.sqrt_mul (sq_nonneg c), Real.sqrt_sq hc]

/-- The normalised weight is invariant under positive rescaling of the raw
weight. -/
theorem wn2d_scaleW (co ci kh kw : ℕ) (c : ℝ) (hc : 0 < c) (w : ℕ → ℕ → ℕ → ℕ → ℝ) :
    wn2d co ci kh kw (scaleW c w) = wn2d co ci kh kw w := by
  funext a b u v
  unfold wn2d
  rw [tnorm_scaleW co ci kh kw c hc.le w]
  show c * w a b u v / (c * tnorm co ci kh kw w) = _
  exact mul_div_mul_left _ _ (ne_of_gt hc)

/-- C5: for a `WNC2D` instance with nonzero stored weight, rescaling the
stored weight by any positive scalar leaves the forward output unchanged at
every input and output position, because `forward` convolves with the
weight normalised by its global tensor norm. -/
theorem wnc2d_scale_invariant (m : WNC2D) (c : ℝ) (hc : 0 < c)
    (_hw : WNonzero m.out_channels m.in_channels m.kh m.kw m.weight)
    (x : ℕ → ℕ → ℕ → ℝ) (H W co i j : ℕ) :
    WNC2D.forward { m with weight := scaleW c m.weight } x H W co i j
      = WNC2D.forward m x H W co i j := by
  show conv2d m.in_channels m.kh m.kw m.stride m.padding m.dil
      (wn2d m.out_channels m.in_channels m.kh m.kw (scaleW c m.weight)) m.bias x H W co i j
    = conv2d m.in_channels m.kh m.kw m.stride m.padding m.dil
      (wn2d m.out_channels m.in_channels m.kh m.kw m.weight) m.bias x H W co i j
  rw [wn2d_scaleW m.out_channels m.in_channels m.kh m.kw c hc m.weight]

/-- A concrete 1×1 weight-normalised convolution used as the C5 witness
instance. -/
def wncInst : WNC2D :=
  { out_channels := 1, in_channels := 1, kh := 1, kw := 1, stride := 1,
    padding := 0, dil := 1, weight := fun _ _ _ _ => 1, bias := fun _ => 0 }

/-- C5 witness: doubling the all-ones 1×1 weight leaves the forward output
on an all-ones input unchanged. -/
theorem wnc2d_scale_invariant_witness :
    (0 : ℝ) < 2 ∧ WNonzero 1 1 1 1 wncInst.weight ∧
    WNC2D.forward { wncInst with weight := scaleW 2 wncInst.weight }
        (fun _ _ _ => 1) 1 1 0 0 0
      = WNC2D.forward wncInst (fun _ _ _ => 1) 1 1 0 0 0 :=
  ⟨by norm_num,
   ⟨0, by norm_num [wncInst], 0, by norm_num [wncInst], 0, by norm_num [wncInst],
    0, by norm_num [wncInst], by norm_num [wncInst]⟩,
   wnc2d_scale_invariant wncInst 2 (by norm_num)
     ⟨0, by norm_num [wncInst], 0, by norm_num [wncInst], 0, by norm_num [wncInst],
      0, by norm_num [wncInst], by norm_num [wncInst]⟩
     (fun _ _ _ => 1) 1 1 0 0 0⟩

/-! ## C1: the mixture-of-softmaxes head is a log-probability row -/

/-- Every entry of a rowwise softmax slice is positive (nonempty slice). -/
theorem softmaxSlice_pos (v : ℕ → ℝ) (start n j : ℕ) (hn : 0 < n) :
    0 < softmaxSlice v start n j := by
  unfold softmaxSlice
  exact div_pos (Real.exp_pos _)
    (Finset.sum_pos (fun _ _ => Real.exp_pos _) ⟨0, mem_range.mpr hn⟩)

/-- A rowwise softmax slice sums to one over its extent (nonempty slice). -/
theorem softmaxSlice_sum (v : ℕ → ℝ) (start n : ℕ) (hn : 0 < n) :
    ∑ j ∈ range n, softmaxSlice v start n j = 1 := by
  unfold softmaxSlice
  rw [← Finset.sum_div]
  exact div_self
    (ne_of_gt (Finset.sum_pos (fun _ _ => Real.exp_pos _) ⟨0, mem_range.mpr hn⟩))

/-- The mixture value at every class is positive: every prior and every
component probability is positive. -/
theorem mosMixture_pos (nClasses : ℕ) (ctx : ℕ → ℝ) (j : ℕ) (hnC : 0 < nClasses) :
    0 < mosMixture nClasses ctx j := by
  unfold mosMixture
  refine Finset.sum_pos (fun i _ => mul_pos ?_ ?_) ⟨0, mem_range.mpr (by norm_num [nComponents])⟩
  · exact softmaxSlice_pos _ _ _ _ (by norm_num [nComponents])
  · exact softmaxSlice_pos _ _ _ _ hnC

/-- The mixture row sums to one: each component distribution sums to one,
and the priors sum to one. -/
theorem mosMixture_sum (nClasses : ℕ) (ctx : ℕ → ℝ) (hnC : 0 < nClasses) :
    ∑ j ∈ range nClasses, mosMixture nClasses ctx j = 1 := by
  unfold mosMixture
  rw [Finset.sum_comm]
  have hcomp : ∀ i ∈ range nComponents,
      ∑ j ∈ range nClasses, mosPriors nClasses ctx i * mosComponent nClasses ctx i j
        = mosPriors nClasses ctx i := by
    intro i _
    rw [← Finset.mul_sum]
    unfold mosComponent
    rw [softmaxSlice_sum _ _ _ hnC, mul_one]
  rw [Finset.sum_congr rfl hcomp]
  unfold mosPriors
  exact softmaxSlice_sum _ _ _ (by norm_num [nComponents])

/-- C1: for every class count above zero and every trunk feature map, each
row returned by `Network.forward` has `nClasses` class entries whose
exponentials are nonnegative and sum to one — the row is the log of a
convex mixture of softmax distributions weighted by softmax priors. -/
theorem network_forward_log_prob (nChannels nClasses : ℕ) (fcW : ℕ → ℕ → ℝ)
    (fcB : ℕ → ℝ) (feat : ℕ → ℕ → ℕ → ℕ → ℝ) (Hp Wp : ℕ) (hnC : 0 < nClasses) :
    (∀ b j, 0 ≤ Real.exp (Network.forwardRow nChannels nClasses fcW fcB feat Hp Wp b j)) ∧
    (∀ b, ∑ j ∈ range nClasses,
        Real.exp (Network.forwardRow nChannels nClasses fcW fcB feat Hp Wp b j) = 1) := by
  constructor
  · intro b j
    exact (Real.exp_pos _).le
  · intro b
    unfold Network.forwardRow mosOut
    rw [Finset.sum_congr rfl fun j _ =>
      Real.exp_log (mosMixture_pos nClasses _ j hnC)]
    exact mosMixture_sum nClasses _ hnC

/-- C1 witness: two classes, all-zero trunk features and classifier. -/
theorem network_forward_log_prob_witness :
    0 < 2 ∧
    ((∀ b j, 0 ≤ Real.exp
        (Network.forwardRow 1 2 (fun _ _ => 0) (fun _ => 0) (fun _ _ _ _ => 0) 1 1 b j)) ∧
     (∀ b, ∑ j ∈ range 2, Real.exp
        (Network.forwardRow 1 2 (fun _ _ => 0) (fun _ => 0) (fun _ _ _ _ => 0) 1 1 b j) = 1)) :=
  ⟨by norm_num,
   network_forward_log_prob 1 2 (fun _ _ => 0) (fun _ => 0) (fun _ _ _ _ => 0) 1 1 (by norm_num)⟩

/-! ## C7: `MDC` at dilation one is a plain convolution -/

/-- C7: an `MDC` constructed with dilation 1 computes, at every input and
output position, exactly the plain (unmasked) 3×3 convolution with its
stored weights, padding 1 and dilation 1; the mask branch is not taken. -/
theorem mdc_dilation_one (m : MDC) (hm : m.dilation = 1)
    (x : ℕ → ℕ → ℕ → ℝ) (H W co i j : ℕ) :
    MDC.forward m x H W co i j
      = some (conv2d m.n_in 3 3 1 1 1 m.weight (fun _ => 0) x H W co i j) := by
  unfold MDC.forward MDC.kernel
  rw [hm]
  norm_num

/-- A concrete dilation-1 `MDC` instance for the C7 witness. -/
def mdcInst : MDC := { n_in := 1, n_out := 1, dilation := 1, weight := fun _ _ _ _ => 1 }

/-- C7 witness: the dilation-1 instance evaluated on an all-ones 1×1 input
agrees with the plain convolution. -/
theorem mdc_dilation_one_witness :
    mdcInst.dilation = 1 ∧
    MDC.forward mdcInst (fun _ _ _ => 1) 1 1 0 0 0
      = some (conv2d mdcInst.n_in 3 3 1 1 1 mdcInst.weight (fun _ => 0)
          (fun _ _ _ => 1) 1 1 0 0 0) :=
  ⟨rfl, mdc_dilation_one mdcInst rfl (fun _ _ _ => 1) 1 1 0 0 0⟩

/-! ## C2: stage-0 gating of `Layer.forward` -/

/-- C2 (amended): with `gate[0]` set and both stage-0 branches present,
`add_split` style sums the two branch outputs (each branch run with its
default ReLU nonlinearity) and returns `tanh(evens) * sigmoid(odds)` of the
sum; `mult` style returns the product of branch 0 run **with `tanh` as its
internal nonlinearity** and branch 2 run **with `sigmoid` as its internal
nonlinearity** (`self.op[0](out, F.tanh) * self.op[2](out, F.sigmoid)`) —
the activations are fed into the `seq` ops, not applied to their outputs. -/
theorem layer_stage0_gate (L : Layer) (s0 s2 : SeqMod) (t : Tensor)
    (hg : L.gate.1 = true) (h0 : L.op0 = some s0) (h2 : L.op2 = some s2) :
    (L.gate_style = "add_split" →
      L.stage0 t = some (.single (gateSplit
        (tAdd (s0.forward t reluR) (s2.forward t reluR))))) ∧
    (L.gate_style = "mult" →
      L.stage0 t = some (.single
        (tMul (s0.forward t Real.tanh) (s2.forward t sigmoidR)))) := by
  constructor
  · intro hs
    simp [Layer.stage0, hg, h0, h2, hs, applyOp]
  · intro hs
    simp [Layer.stage0, hg, h0, h2, hs, applyOp]

/-- A `seq` branch whose convolution is the identity (preactivation, no
batch norm), used by the `Layer` claim instances. -/
def sIdSeq : SeqMod :=
  { preactivation := true, batchnorm := false, bn := fun t => t, conv := fun t => t }

/-- A gated layer in `add_split` style for the C2 witness. -/
def gateLayer : Layer :=
  { gate := (true, false), gate_style := "add_split", norm_style := "before",
    preactivation := true, bn1 := fun t => t, bn2 := fun t => t, conv1 := fun t => t,
    op0 := some sIdSeq, op1 := none, op2 := some sIdSeq, op3 := none }

/-- C2 witness: the `add_split` branch of the claim at a concrete layer and
two-channel input. -/
theorem layer_stage0_gate_witness :
    gateLayer.gate.1 = true ∧ gateLayer.op0 = some sIdSeq ∧
    gateLayer.op2 = some sIdSeq ∧ gateLayer.gate_style = "add_split" ∧
    gateLayer.stage0 [1, 2] = some (.single (gateSplit
      (tAdd (sIdSeq.forward [1, 2] reluR) (sIdSeq.forward [1, 2] reluR)))) :=
  ⟨rfl, rfl, rfl, rfl,
    (layer_stage0_gate gateLayer sIdSeq sIdSeq [1, 2] rfl rfl rfl).1 rfl⟩

/-- A gated layer in `mult` style for the C2 counterexample. -/
def multGateLayer : Layer :=
  { gate := (true, false), gate_style := "mult", norm_style := "before",
    preactivation := true, bn1 := fun t => t, bn2 := fun t => t, conv1 := fun t => t,
    op0 := some sIdSeq, op1 := none, op2 := some sIdSeq, op3 := none }

/-- C2 counterexample: the claim states that `mult` style returns
`tanh(op[0](out)) * sigmoid(op[2](out))` — the activations applied to the
branch outputs (each branch run with its default ReLU).  At the single
negative input `[-1]` with identity branch convolutions the code yields
`[tanh(-1) * sigmoid(-1)] < 0` while the claimed value is
`[tanh(relu(-1)) * sigmoid(relu(-1))] = [0]`. -/
theorem layer_mult_gate_cex :
    Layer.stage0 multGateLayer [-1]
      ≠ some (.single (tMul ((sIdSeq.forward [-1] reluR).map Real.tanh)
                            ((sIdSeq.forward [-1] reluR).map sigmoidR))) := by
  have htanh : Real.tanh (-1 : ℝ) < 0 := by
    rw [Real.tanh_eq_sinh_div_cosh]
    exact div_neg_of_neg_of_pos (by simp) (Real.cosh_pos _)
  have hsig : 0 < sigmoidR (-1) := by
    unfold sigmoidR
    positivity
  have hne : Real.tanh (-1 : ℝ) * sigmoidR (-1) ≠ 0 :=
    ne_of_lt (mul_neg_of_neg_of_pos htanh hsig)
  have hrelu : reluR (-1 : ℝ) = 0 := by norm_num [reluR]
  have hL : Layer.stage0 multGateLayer [-1]
      = some (.single [Real.tanh (-1) * sigmoidR (-1)]) := by
    simp [Layer.stage0, multGateLayer, sIdSeq, applyOp, SeqMod.forward, tMul]
  have hR : tMul ((sIdSeq.forward [-1] reluR).map Real.tanh)
      ((sIdSeq.forward [-1] reluR).map sigmoidR) = [0] := by
    simp [sIdSeq, SeqMod.forward, tMul, hrelu, Real.tanh_zero]
  rw [hL, hR]
  intro h
  have h2 := Option.some.inj h
  rw [StageOut.single.injEq] at h2
  exact hne (List.head_eq_of_cons_eq h2)

/-! ## C3: `Layer` with all four ops and no gates -/

/-- C3 (amended): a `Layer` with all four branch ops present and both gate
flags false computes `op[1](op[0](initial_op(x))) + op[3](op[2](initial_op(x)))`
(all branches with their default ReLU nonlinearity): stage 0 produces the
two-element list `[op0(out), op2(out)]` and stage 1 adds the two chained
branch pairs — not `op[0]` alone. -/
theorem layer_all_ops_no_gate (L : Layer) (s0 s1 s2 s3 : SeqMod) (x : Tensor)
    (hg0 : L.gate.1 = false) (hg1 : L.gate.2 = false)
    (h0 : L.op0 = some s0) (h1 : L.op1 = some s1)
    (h2 : L.op2 = some s2) (h3 : L.op3 = some s3) :
    L.forward x = some (tAdd (s1.forward (s0.forward (L.initial_op x) reluR) reluR)
                             (s3.forward (s2.forward (L.initial_op x) reluR) reluR)) := by
  simp [Layer.forward, Layer.stage0, Layer.stage1, hg0, hg1, h0, h1, h2, h3, applyOp]

/-- The all-ops, no-gate layer used for the C3 witness and counterexample. -/
def allOpsLayer : Layer :=
  { gate := (false, false), gate_style := "add_split", norm_style := "before",
    preactivation := true, bn1 := fun t => t, bn2 := fun t => t, conv1 := fun t => t,
    op0 := some sIdSeq, op1 := some sIdSeq, op2 := some sIdSeq, op3 := some sIdSeq }

/-- C3 witness: the amended dataflow at a concrete layer and input. -/
theorem layer_all_ops_no_gate_witness :
    allOpsLayer.gate.1 = false ∧ allOpsLayer.gate.2 = false ∧
    allOpsLayer.op0 = some sIdSeq ∧ allOpsLayer.op1 = some sIdSeq ∧
    allOpsLayer.op2 = some sIdSeq ∧ allOpsLayer.op3 = some sIdSeq ∧
    allOpsLayer.forward [1] = some
      (tAdd (sIdSeq.forward (sIdSeq.forward (allOpsLayer.initial_op [1]) reluR) reluR)
            (sIdSeq.forward (sIdSeq.forward (allOpsLayer.initial_op [1]) reluR) reluR)) :=
  ⟨rfl, rfl, rfl, rfl, rfl, rfl,
    layer_all_ops_no_gate allOpsLayer sIdSeq sIdSeq sIdSeq sIdSeq [1]
      rfl rfl rfl rfl rfl rfl⟩

/-- C3 counterexample: with all four ops present and both gates false the
forward output is not `op[0](initial_op(x))`: at input `[1]` with identity
branch convolutions the code returns `[2]` (the sum of the two chained
branch pairs) while the claimed value is `[1]`. -/
theorem layer_all_ops_cex :
    Layer.forward allOpsLayer [1]
      ≠ some (sIdSeq.forward (allOpsLayer.initial_op [1]) reluR) := by
  have e1 : reluR 1 = (1 : ℝ) := by norm_num [reluR]
  have hL : Layer.forward allOpsLayer [1] = some [2] := by
    simp only [Layer.forward, Layer.stage0, Layer.stage1, Layer.initial_op, allOpsLayer,
      sIdSeq, applyOp, SeqMod.forward, reluT, tAdd, List.map_cons, List.map_nil,
      List.zipWith_cons_cons, List.zipWith_nil_right, Option.map_some, Option.bind_some]
    norm_num [reluR]
  have hR : sIdSeq.forward (allOpsLayer.initial_op [1]) reluR = [1] := by
    simp only [Layer.initial_op, allOpsLayer, sIdSeq, SeqMod.forward, reluT,
      List.map_cons, List.map_nil]
    norm_num [reluR]
  rw [hL, hR]
  intro h
  have h2 := Option.some.inj h
  simp at h2

/-! ## C4: the `BasicBlock` shortcut -/

/-- C4 (amended): when the channel counts differ, `BasicBlock.forward`
feeds `relu1(bn1(x))` into the convolutional branch and adds the 1×1
shortcut convolution applied to that same normalise-activate output
`relu1(bn1(x))` — the local `x` is reassigned before the shortcut reads it,
so the shortcut does **not** see the original input; when the channel
counts are equal no shortcut convolution is instantiated and the original
input itself is added. -/
theorem basicblock_forward_cases (b : BasicBlock) (x : Tensor) :
    (b.equalInOut = false →
      b.forward x = some (tAdd (b.convShortcutF (reluT (b.bn1 x))) (b.branch x)) ∧
      b.convShortcut = some b.convShortcutF) ∧
    (b.equalInOut = true →
      b.forward x = some (tAdd x (b.branch x)) ∧ b.convShortcut = none) := by
  constructor
  · intro he
    exact ⟨by simp [BasicBlock.forward, BasicBlock.convShortcut, he],
           by simp [BasicBlock.convShortcut, he]⟩
  · intro he
    exact ⟨by simp [BasicBlock.forward, he],
           by simp [BasicBlock.convShortcut, he]⟩

/-- A channel-changing `BasicBlock` (1 → 2 planes) with identity batch
norms and convolutions, used for the C4 witness and counterexample. -/
def bbInst : BasicBlock :=
  { in_planes := 1, out_planes := 2, bn1 := fun t => t, bn2 := fun t => t,
    conv1 := fun t => t, conv2 := fun t => t, convShortcutF := fun t => t,
    droprate := 0, dropout := fun t => t }

/-- C4 witness: the channel-mismatch case of the amended claim at a
concrete block and input. -/
theorem basicblock_forward_cases_witness :
    bbInst.equalInOut = false ∧
    bbInst.forward [1] = some (tAdd (bbInst.convShortcutF (reluT (bbInst.bn1 [1])))
      (bbInst.branch [1])) ∧
    bbInst.convShortcut = some bbInst.convShortcutF :=
  ⟨rfl, ((basicblock_forward_cases bbInst [1]).1 rfl).1,
    ((basicblock_forward_cases bbInst [1]).1 rfl).2⟩

/-- C4 counterexample: the claim states the residual term is the shortcut
convolution applied to the original input.  At input `[-1]` with identity
submodules the code adds `convShortcut(relu(bn1([-1]))) = [0]` and returns
`[0]`, while the claimed value `convShortcut([-1]) + branch = [-1]`. -/
theorem basicblock_shortcut_cex :
    bbInst.forward [-1] ≠ some (tAdd (bbInst.convShortcutF [-1]) (bbInst.branch [-1])) := by
  have hL : bbInst.forward [-1] = some [0] := by
    simp only [BasicBlock.forward, BasicBlock.convShortcut, BasicBlock.branch,
      BasicBlock.equalInOut, bbInst, reluT, List.map_cons, List.map_nil, tAdd,
      List.zipWith_cons_cons, List.zipWith_nil_right, Option.map_some]
    norm_num [reluR]
  have hR : tAdd (bbInst.convShortcutF [-1]) (bbInst.branch [-1]) = [-1] := by
    simp only [BasicBlock.branch, bbInst, reluT, List.map_cons, List.map_nil, tAdd,
      List.zipWith_cons_cons, List.zipWith_nil_right]
    norm_num [reluR]
  rw [hL, hR]
  intro h
  have h2 := Option.some.inj h
  simp at h2
